import Mathlib

/-!
# Sound hardware output (engine/client/s_backend.c)

A shallow embedding of the SDL sound backend: the device callback that copies
the recirculating DMA buffer into the device output region, the sound clock
`SNDDMA_GetSoundtime`, and `SNDDMA_Shutdown`.  The build modelled is the one
with `XASH_SDL` defined.

Conventions of the embedding:

* a C `int` is a mathematical integer; every arithmetic operation of the source
  whose result can leave the 32 bit range is reduced with `wrap32`;
* memory regions are lists of bytes, a pointer into a region is a byte offset;
* calls into code outside this file (`Con_Printf`, `SDL_CloseAudio`,
  `SDL_QuitSubSystem`, `Z_Free`, `S_StopAllSounds`) are recorded, in order, in
  a list of `Call`s returned next to the new state.
-/

set_option autoImplicit false

namespace S_Backend

/-! ## Machine integers -/

/-- Largest value of the C type `int`. -/
def INT_MAX : Int := 2147483647

/-- Smallest value of the C type `int`. -/
def INT_MIN : Int := -2147483648

/-- Whether a mathematical integer is a value of the C type `int`. -/
def isInt (x : Int) : Bool := decide (INT_MIN ≤ x) && decide (x ≤ INT_MAX)

/-- Two's complement reduction of a mathematical integer to the range of `int`. -/
def wrap32 (x : Int) : Int := (x + 2147483648) % 4294967296 - 2147483648

/-- The C expression `x << 1` on `int`. -/
def shl1 (x : Int) : Int := wrap32 (x * 2)

/-- The C expression `x >> 1` on `int` (arithmetic shift: rounds towards minus infinity). -/
def shr1 (x : Int) : Int := x / 2

/-- The C expression `x / 2` on `int` (rounds towards zero). -/
def half (x : Int) : Int := Int.tdiv x 2

/-! ## Data model -/

/-- One byte of sample memory. -/
abbrev Byte := Fin 256

/-- Modelled from the spec: `snd_format_t` is declared in sound.h, which is not
among the sources; the fields are the ones s_backend.c assigns
(`dma.format.speed`, `dma.format.width`, `dma.format.channels`), matching the
spec's AudioFormat. -/
structure snd_format_t where
  speed : Int
  width : Int
  channels : Int
  deriving DecidableEq

/-- Modelled from the spec: `dma_t` is declared in sound.h, which is not among
the sources; the fields are the ones s_backend.c reads and writes, matching the
spec's RingBuffer and DeviceState.  `samples` is the capacity in samples,
`samplepos` the read cursor in samples, `buffer` the owned byte storage
(`none` is the NULL pointer). -/
structure dma_t where
  format : snd_format_t
  samples : Int
  samplepos : Int
  sampleframes : Int
  buffer : Option (List Byte)
  initialized : Bool
  deriving DecidableEq

/-- The globals of the backend together with the function statics of
`SNDDMA_GetSoundtime`.  `paintedtime` is the mixer's global declared in sound.h. -/
structure Backend where
  dma : dma_t
  paintedtime : Int
  buffers : Int
  oldsamplepos : Int
  deriving DecidableEq

/-- Calls that leave s_backend.c. -/
inductive Call where
  | Con_Printf
  | SDL_CloseAudio
  | SDL_QuitSubSystem (flags : Int)
  | Z_Free
  | S_StopAllSounds
  deriving DecidableEq

/-- The flag `SDL_INIT_AUDIO` of SDL.h. -/
def SDL_INIT_AUDIO : Int := 16

/-! ## The device callback -/

/-- One call `memcpy(stream + dst, dma.buffer + src, n)`. -/
structure Copy where
  dst : Int
  src : Int
  n : Int
  deriving DecidableEq

/-- What one invocation of the callback works on: the backend's `dma`, the
device output region `stream`, the `memcpy` calls issued so far and whether one
of them touched a byte outside its region. -/
structure Playback where
  dma : dma_t
  stream : List Byte
  copies : List Copy
  fault : Bool
  deriving DecidableEq

/-- Whether the `n` bytes from offset `off` on lie inside a region of `size` bytes. -/
def inRegion (off n : Int) (size : Nat) : Bool :=
  decide (0 ≤ off) && decide (0 ≤ n) && decide (off + n ≤ size)

/-- The region `dst` after `n` bytes of `src`, taken from offset `s`, are stored at offset `d`. -/
def splice (dst : List Byte) (d : Nat) (src : List Byte) (s n : Nat) : List Byte :=
  dst.take d ++ (src.drop s).take n ++ dst.drop (d + n)

/-- The call `memcpy(stream + dst, dma.buffer + src, n)`.  A negative `n`
converts to a `size_t` beyond every region, so it counts as out of bounds, as
does a NULL `dma.buffer`. -/
def memcpy (m : Playback) (dst src n : Int) : Playback :=
  let m := { m with copies := m.copies ++ [Copy.mk dst src n] }
  match m.dma.buffer with
  | none => { m with fault := true }
  | some buf =>
    if inRegion dst n m.stream.length && inRegion src n buf.length then
      { m with stream := splice m.stream dst.toNat buf src.toNat n.toNat }
    else
      { m with fault := true }

/-- The function `SDL_SoundCallback(userdata, stream, len)`; `userdata` is not used. -/
def SDL_SoundCallback (dma : dma_t) (stream : List Byte) (len : Int) : Playback :=
  let size := shl1 dma.samples
  let pos := shl1 dma.samplepos
  let wrapped := wrap32 (wrap32 (pos + len) - size)
  let m : Playback := Playback.mk dma stream [] false
  if wrapped < 0 then
    let m := memcpy m 0 pos len
    { m with dma := { m.dma with samplepos := wrap32 (m.dma.samplepos + shr1 len) } }
  else
    let remaining := wrap32 (size - pos)
    let m := memcpy m 0 pos remaining
    let m := memcpy m remaining 0 wrapped
    { m with dma := { m.dma with samplepos := shr1 wrapped } }

/-! ## The sound clock -/

/-- The function `SNDDMA_GetDMAPos`: it reads `dma.samplepos` and writes nothing. -/
def SNDDMA_GetDMAPos (g : Backend) : Int := g.dma.samplepos

/-- Outcome of one call of `SNDDMA_GetSoundtime`: the returned value, the
globals and statics afterwards, the outside calls made, and whether a signed
operation left the range of `int`. -/
structure Soundtime where
  ret : Int
  state : Backend
  calls : List Call
  overflow : Bool
  deriving DecidableEq

/-- The function `SNDDMA_GetSoundtime`. -/
def SNDDMA_GetSoundtime (g : Backend) : Soundtime :=
  let fullsamples := half g.dma.samples
  let samplepos := SNDDMA_GetDMAPos g
  let wrap := decide (samplepos < g.oldsamplepos)
  let reset := wrap && decide (g.paintedtime > 0x40000000)
  let buffers1 := if wrap then wrap32 (g.buffers + 1) else g.buffers
  let buffers2 := if reset then 0 else buffers1
  let paintedtime := if reset then fullsamples else g.paintedtime
  let calls := if reset then [Call.S_StopAllSounds] else []
  let product := buffers2 * fullsamples
  let sum := wrap32 product + half samplepos
  { ret := wrap32 sum
    state := { g with buffers := buffers2, paintedtime := paintedtime, oldsamplepos := samplepos }
    calls := calls
    overflow := (wrap && !isInt (g.buffers + 1)) || !isInt product || !isInt sum }

/-! ## Shutdown -/

/-- The function `SNDDMA_Shutdown`.  `SDL_WasInit` is the answer of the SDL
runtime to the query of that name; the source passes it `SDL_INIT_AUDIO != 0`. -/
def SNDDMA_Shutdown (SDL_WasInit : Int → Int) (g : Backend) : Backend × List Call :=
  let calls := [Call.Con_Printf]
  let g := { g with dma := { g.dma with initialized := false } }
  let calls := calls ++ [Call.SDL_CloseAudio]
  let calls :=
    if SDL_WasInit (if SDL_INIT_AUDIO ≠ 0 then 1 else 0) ≠ 0 then
      calls ++ [Call.SDL_QuitSubSystem SDL_INIT_AUDIO]
    else calls
  match g.dma.buffer with
  | some _ => ({ g with dma := { g.dma with buffer := none } }, calls ++ [Call.Z_Free])
  | none => (g, calls)

/-! ## Runs

Sequences of calls, as the device and the mixer issue them. -/

/-- What the environment presents to one poll of the clock: the cursor the
device has left in `dma.samplepos` and the mixer's `paintedtime`. -/
structure Poll where
  samplepos : Int
  paintedtime : Int
  deriving DecidableEq

/-- The globals as one poll finds them. -/
def observe (g : Backend) (p : Poll) : Backend :=
  { g with dma := { g.dma with samplepos := p.samplepos }, paintedtime := p.paintedtime }

/-- Consecutive calls of `SNDDMA_GetSoundtime`, one per entry, each on the
state its predecessor left; the outcomes in order. -/
def polls (g : Backend) : List Poll → List Soundtime
  | [] => []
  | p :: ps =>
    SNDDMA_GetSoundtime (observe g p) ::
      polls (SNDDMA_GetSoundtime (observe g p)).state ps

/-- One step of an interleaving: the device invokes `SDL_SoundCallback` on an
output region `stream` of `len` bytes, or the mixer, whose `paintedtime` is
given, calls `SNDDMA_GetSoundtime`. -/
inductive Event where
  | callback (stream : List Byte) (len : Int)
  | poll (paintedtime : Int)
  deriving DecidableEq

/-- An interleaving of callback invocations and polls; the outcomes of the polls in order. -/
def run (g : Backend) : List Event → List Soundtime
  | [] => []
  | Event.callback stream len :: es =>
    run { g with dma := (SDL_SoundCallback g.dma stream len).dma } es
  | Event.poll t :: es =>
    SNDDMA_GetSoundtime { g with paintedtime := t } ::
      run (SNDDMA_GetSoundtime { g with paintedtime := t }).state es

/-- For every poll of an interleaving, the number of bytes the callback was
asked for before it, counted from `bytes`. -/
def delivered (bytes : Int) : List Event → List Int
  | [] => []
  | Event.callback _ len :: es => delivered (bytes + len) es
  | Event.poll _ :: es => bytes :: delivered bytes es

/-- Whether fewer than `cap` bytes are delivered before the first poll
(`since` bytes being delivered already) and between consecutive polls. -/
def paced (cap since : Int) : List Event → Bool
  | [] => true
  | Event.callback _ len :: es => paced cap (since + len) es
  | Event.poll _ :: es => decide (since < cap) && paced cap 0 es

/-- Whether every callback of an interleaving is asked for an even number of
bytes between 0 and `cap`. -/
def evenLens (cap : Int) : List Event → Bool
  | [] => true
  | Event.callback _ len :: es =>
    decide (0 ≤ len) && decide (len ≤ cap) && decide (len % 2 = 0) && evenLens cap es
  | Event.poll _ :: es => evenLens cap es

/-- Consecutive calls of `SNDDMA_Shutdown`, one per answer of the SDL runtime;
the final state and all outside calls in order. -/
def shutdowns (g : Backend) : List (Int → Int) → Backend × List Call
  | [] => (g, [])
  | f :: fs =>
    ((shutdowns (SNDDMA_Shutdown f g).1 fs).1,
      (SNDDMA_Shutdown f g).2 ++ (shutdowns (SNDDMA_Shutdown f g).1 fs).2)

/-! ## Concrete inputs -/

/-- A buffer of four samples. -/
def demo_buffer : List Byte := [10, 11, 12, 13, 14, 15, 16, 17]

/-- A device of four samples whose cursor stands on the last one. -/
def demo_dma : dma_t :=
  { format := { speed := 44100, width := 2, channels := 2 }
    samples := 4
    samplepos := 3
    sampleframes := 2
    buffer := some demo_buffer
    initialized := true }

/-- The device as `SNDDMA_Init` leaves it for two channels at 44100 Hz:
`0x8000 * 2` samples in a buffer of twice as many bytes, cursor 0. -/
def stereo_dma : dma_t :=
  { format := { speed := 44100, width := 2, channels := 2 }
    samples := 65536
    samplepos := 0
    sampleframes := 32768
    buffer := some (List.replicate 131072 0)
    initialized := true }

/-- The stereo device after 63 callbacks of 2048 bytes: 2048 more bytes reach
the end of the buffer exactly. -/
def boundary_dma : dma_t := { stereo_dma with samplepos := 64512 }

/-- A device of four samples right after start: cursor, wrap count and last
cursor are zero. -/
def start_state : Backend :=
  { dma := { demo_dma with samplepos := 0 }
    paintedtime := 0
    buffers := 0
    oldsamplepos := 0 }

/-- The stereo device right after start. -/
def clock_state : Backend :=
  { dma := stereo_dma
    paintedtime := 0
    buffers := 0
    oldsamplepos := 0 }

/-- A state past the ceiling whose cursor has not moved since the last poll. -/
def ceiling_state : Backend :=
  { dma := { clock_state.dma with samplepos := 100 }
    paintedtime := 1073741825
    buffers := 7
    oldsamplepos := 100 }

/-- A state past the ceiling whose cursor has fallen behind the last observed one. -/
def wrapped_state : Backend :=
  { dma := { clock_state.dma with samplepos := 100 }
    paintedtime := 1073741825
    buffers := 7
    oldsamplepos := 200 }

/-- A state as `SNDDMA_Shutdown` leaves it (`initialized` false, no buffer),
the device having moved the cursor after the last poll. -/
def closed_state : Backend :=
  { dma := { clock_state.dma with samplepos := 100, buffer := none, initialized := false }
    paintedtime := 1073741825
    buffers := 7
    oldsamplepos := 200 }

/-- A shut down state whose cursor is the last observed one. -/
def idle_state : Backend :=
  { dma := { clock_state.dma with samplepos := 100, buffer := none, initialized := false }
    paintedtime := 1073741825
    buffers := 7
    oldsamplepos := 100 }

/-- Four polls at the cursors 100, 100, 50 and 200. -/
def demo_polls : List Poll :=
  [Poll.mk 100 0, Poll.mk 100 0, Poll.mk 50 0, Poll.mk 200 0]

/-- Deliveries of 6, 6 and 4 bytes, each followed by a poll. -/
def demo_events : List Event :=
  [Event.callback [0, 0, 0, 0, 0, 0] 6, Event.poll 0,
   Event.callback [0, 0, 0, 0, 0, 0] 6, Event.poll 0,
   Event.callback [0, 0, 0, 0] 4, Event.poll 0, Event.poll 0]

/-! ## Arithmetic -/

theorem wrap32_of_isInt {x : Int} (h0 : -2147483648 ≤ x) (h1 : x ≤ 2147483647) :
    wrap32 x = x := by
  unfold wrap32; omega

theorem isInt_iff (x : Int) : isInt x = true ↔ -2147483648 ≤ x ∧ x ≤ 2147483647 := by
  simp [isInt, INT_MIN, INT_MAX]

theorem half_of_nonneg {x : Int} (h : 0 ≤ x) : half x = x / 2 :=
  Int.tdiv_eq_ediv h (by decide)

/-- The cursor the callback leaves, read as a residue of the capacity. -/
theorem cursor_arith (S sp len : Int) (h0 : 0 ≤ sp) (h1 : sp < S) (hl0 : 0 ≤ len)
    (hl1 : len ≤ 2 * S) (heven : len % 2 = 0) :
    (if 2 * sp + len - 2 * S < 0 then sp + len / 2 else (2 * sp + len - 2 * S) / 2)
      = (sp + len / 2) % S := by
  by_cases hw : 2 * sp + len - 2 * S < 0
  · rw [if_pos hw, Int.emod_eq_of_lt (by omega) (by omega)]
  · rw [if_neg hw, ← Int.emod_sub_cancel, Int.emod_eq_of_lt (by omega) (by omega)]
    omega

/-- When fewer than `S` samples were delivered since the last poll, the cursor
has fallen behind the last observed one exactly when a lap was completed. -/
theorem lap_arith (S T D : Int) (hS : 0 < S) (hD0 : 0 ≤ D) (hDS : D < S) :
    (T % S < (T - D) % S → T / S = (T - D) / S + 1) ∧
    (¬ T % S < (T - D) % S → T / S = (T - D) / S) := by
  have hdec := Int.emod_add_ediv (T - D) S
  have hr0 := Int.emod_nonneg (T - D) (ne_of_gt hS)
  have hr1 := Int.emod_lt_of_pos (T - D) hS
  by_cases hc : (T - D) % S + D < S
  · have hu : T / S = (T - D) / S ∧ T % S = (T - D) % S + D := by
      rw [Int.ediv_emod_unique hS]
      refine ⟨by omega, by omega, hc⟩
    rw [hu.1, hu.2]
    constructor
    · intro h; omega
    · intro _; rfl
  · have hu : T / S = (T - D) / S + 1 ∧ T % S = (T - D) % S + D - S := by
      rw [Int.ediv_emod_unique hS]
      refine ⟨?_, by omega, by omega⟩
      rw [mul_add, mul_one]; omega
    rw [hu.1, hu.2]
    constructor
    · intro _; rfl
    · intro h; omega

/-- Laps times half the capacity plus half the cursor is half the sample count. -/
theorem half_arith (S T : Int) (hev : S % 2 = 0) :
    (T / S) * (S / 2) + (T % S) / 2 = T / 2 := by
  have hdec := Int.emod_add_ediv T S
  have h2 : S * (T / S) = 2 * ((T / S) * (S / 2)) := by
    have : S = 2 * (S / 2) := by omega
    calc S * (T / S) = (2 * (S / 2)) * (T / S) := by rw [← this]
      _ = 2 * ((T / S) * (S / 2)) := by ring
  omega

theorem clock_bounds (S T : Int) (hS : 0 < S) (hev : S % 2 = 0) (hT0 : 0 ≤ T)
    (hT : T / 2 ≤ 2147483647) :
    (-2147483648 ≤ T / S ∧ T / S ≤ 2147483647) ∧
    (-2147483648 ≤ T / S * (S / 2) ∧ T / S * (S / 2) ≤ 2147483647) ∧
    (-2147483648 ≤ T / S * (S / 2) + T % S / 2 ∧
      T / S * (S / 2) + T % S / 2 ≤ 2147483647) := by
  have hc0 := Int.emod_nonneg T (ne_of_gt hS)
  have hq0 : 0 ≤ T / S := Int.ediv_nonneg hT0 (le_of_lt hS)
  have hhalf := half_arith S T hev
  have hmul : T / S ≤ T / S * (S / 2) := le_mul_of_one_le_right hq0 (by omega)
  generalize T / S * (S / 2) = X at *
  generalize T / S = q at *
  generalize T % S = r at *
  omega

/-! ## Memory -/

theorem length_splice (dst src : List Byte) (d s n : Nat)
    (hd : d + n ≤ dst.length) (hs : s + n ≤ src.length) :
    (splice dst d src s n).length = dst.length := by
  simp only [splice, List.length_append, List.length_take, List.length_drop]
  omega

theorem getElem?_splice (dst src : List Byte) (d s n i : Nat)
    (hd : d + n ≤ dst.length) (hs : s + n ≤ src.length) :
    (splice dst d src s n)[i]? =
      if d ≤ i ∧ i < d + n then src[s + (i - d)]? else dst[i]? := by
  have h1 : (dst.take d).length = d := by simp; omega
  have h2 : ((src.drop s).take n).length = n := by simp; omega
  unfold splice
  by_cases hi : i < d
  · have : ¬ (d ≤ i ∧ i < d + n) := by omega
    rw [if_neg this, List.append_assoc, List.getElem?_append_left (by omega),
      List.getElem?_take, if_pos hi]
  · by_cases hi2 : i < d + n
    · rw [if_pos ⟨by omega, hi2⟩, List.getElem?_append_left (by simp; omega),
        List.getElem?_append_right (by omega), h1, List.getElem?_take,
        if_pos (by omega), List.getElem?_drop]
    · have : ¬ (d ≤ i ∧ i < d + n) := by omega
      rw [if_neg this, List.getElem?_append_right (by simp; omega), List.length_append, h1, h2,
        List.getElem?_drop]
      congr 1; omega

theorem memcpy_ok (m : Playback) (buf : List Byte) (dst src n : Int)
    (hb : m.dma.buffer = some buf)
    (hd : inRegion dst n m.stream.length = true) (hs : inRegion src n buf.length = true) :
    memcpy m dst src n =
      { m with
        stream := splice m.stream dst.toNat buf src.toNat n.toNat
        copies := m.copies ++ [Copy.mk dst src n] } := by
  simp only [memcpy, hb, hd, hs, Bool.and_self, if_true]

theorem memcpy_dma (m : Playback) (dst src n : Int) : (memcpy m dst src n).dma = m.dma := by
  unfold memcpy
  dsimp only
  split
  · rfl
  · split <;> rfl

theorem memcpy_copies (m : Playback) (dst src n : Int) :
    (memcpy m dst src n).copies = m.copies ++ [Copy.mk dst src n] := by
  unfold memcpy
  dsimp only
  split
  · rfl
  · split <;> rfl

/-! ## The callback, branch by branch -/

/-- The callback when the request ends before the end of the buffer. -/
theorem SDL_SoundCallback_straight (dma : dma_t) (buf stream : List Byte) (len : Int)
    (h0 : 0 ≤ dma.samplepos) (h1 : dma.samplepos < dma.samples)
    (hS : 2 * dma.samples ≤ 2147483647) (hl0 : 0 ≤ len)
    (hb : dma.buffer = some buf) (hbl : (buf.length : Int) = 2 * dma.samples)
    (hs : (stream.length : Int) = len)
    (hw : 2 * dma.samplepos + len < 2 * dma.samples) :
    SDL_SoundCallback dma stream len =
      { dma := { dma with samplepos := dma.samplepos + len / 2 }
        stream := splice stream 0 buf (2 * dma.samplepos).toNat len.toNat
        copies := [Copy.mk 0 (2 * dma.samplepos) len]
        fault := false } := by
  have e1 : shl1 dma.samples = 2 * dma.samples := by unfold shl1 wrap32; omega
  have e2 : shl1 dma.samplepos = 2 * dma.samplepos := by unfold shl1 wrap32; omega
  have e3 : wrap32 (wrap32 (2 * dma.samplepos + len) - 2 * dma.samples)
      = 2 * dma.samplepos + len - 2 * dma.samples := by unfold wrap32; omega
  have e4 : wrap32 (dma.samplepos + len / 2) = dma.samplepos + len / 2 := by
    unfold wrap32; omega
  have hneg : 2 * dma.samplepos + len - 2 * dma.samples < 0 := by omega
  have r1 : inRegion 0 len stream.length = true := by
    simp only [inRegion, Bool.and_eq_true, decide_eq_true_eq]; omega
  have r2 : inRegion (2 * dma.samplepos) len buf.length = true := by
    simp only [inRegion, Bool.and_eq_true, decide_eq_true_eq]; omega
  simp only [SDL_SoundCallback, e1, e2, e3, shr1, if_pos hneg]
  rw [memcpy_ok _ buf 0 _ len hb r1 r2]
  simp [e4]

/-- The callback when the request reaches the end of the buffer or passes it. -/
theorem SDL_SoundCallback_wrapped (dma : dma_t) (buf stream : List Byte) (len : Int)
    (h0 : 0 ≤ dma.samplepos) (h1 : dma.samplepos < dma.samples)
    (hS : 2 * dma.samples ≤ 2147483647) (hl1 : len ≤ 2 * dma.samples)
    (hb : dma.buffer = some buf) (hbl : (buf.length : Int) = 2 * dma.samples)
    (hs : (stream.length : Int) = len)
    (hw : 2 * dma.samples ≤ 2 * dma.samplepos + len) :
    SDL_SoundCallback dma stream len =
      { dma := { dma with samplepos := (2 * dma.samplepos + len - 2 * dma.samples) / 2 }
        stream :=
          splice
            (splice stream 0 buf (2 * dma.samplepos).toNat
              (2 * dma.samples - 2 * dma.samplepos).toNat)
            (2 * dma.samples - 2 * dma.samplepos).toNat buf 0
            (2 * dma.samplepos + len - 2 * dma.samples).toNat
        copies :=
          [Copy.mk 0 (2 * dma.samplepos) (2 * dma.samples - 2 * dma.samplepos),
           Copy.mk (2 * dma.samples - 2 * dma.samplepos) 0
             (2 * dma.samplepos + len - 2 * dma.samples)]
        fault := false } := by
  have e1 : shl1 dma.samples = 2 * dma.samples := by unfold shl1 wrap32; omega
  have e2 : shl1 dma.samplepos = 2 * dma.samplepos := by unfold shl1 wrap32; omega
  have e3 : wrap32 (wrap32 (2 * dma.samplepos + len) - 2 * dma.samples)
      = 2 * dma.samplepos + len - 2 * dma.samples := by unfold wrap32; omega
  have e4 : wrap32 (2 * dma.samples - 2 * dma.samplepos)
      = 2 * dma.samples - 2 * dma.samplepos := by unfold wrap32; omega
  have hneg : ¬ 2 * dma.samplepos + len - 2 * dma.samples < 0 := by omega
  have r1 : inRegion 0 (2 * dma.samples - 2 * dma.samplepos) stream.length = true := by
    simp only [inRegion, Bool.and_eq_true, decide_eq_true_eq]; omega
  have r2 : inRegion (2 * dma.samplepos) (2 * dma.samples - 2 * dma.samplepos) buf.length
      = true := by
    simp only [inRegion, Bool.and_eq_true, decide_eq_true_eq]; omega
  have hlen : (splice stream 0 buf (2 * dma.samplepos).toNat
      (2 * dma.samples - 2 * dma.samplepos).toNat).length = stream.length := by
    apply length_splice <;> omega
  have r3 : inRegion (2 * dma.samples - 2 * dma.samplepos)
      (2 * dma.samplepos + len - 2 * dma.samples)
      (splice stream 0 buf (2 * dma.samplepos).toNat
        (2 * dma.samples - 2 * dma.samplepos).toNat).length = true := by
    rw [hlen]
    simp only [inRegion, Bool.and_eq_true, decide_eq_true_eq]; omega
  have r4 : inRegion 0 (2 * dma.samplepos + len - 2 * dma.samples) buf.length = true := by
    simp only [inRegion, Bool.and_eq_true, decide_eq_true_eq]; omega
  simp only [SDL_SoundCallback, e1, e2, e3, e4, shr1, if_neg hneg]
  rw [memcpy_ok _ buf 0 _ _ hb r1 r2]
  rw [memcpy_ok _ buf _ 0 _ hb r3 r4]
  simp

/-- The `dma` the callback leaves, whatever the memory holds. -/
theorem SDL_SoundCallback_dma (dma : dma_t) (stream : List Byte) (len : Int) :
    (SDL_SoundCallback dma stream len).dma =
      { dma with
        samplepos :=
          if wrap32 (wrap32 (shl1 dma.samplepos + len) - shl1 dma.samples) < 0 then
            wrap32 (dma.samplepos + shr1 len)
          else shr1 (wrap32 (wrap32 (shl1 dma.samplepos + len) - shl1 dma.samples)) } := by
  unfold SDL_SoundCallback
  simp only []
  split <;> simp [memcpy_dma]

/-- The `memcpy` calls the callback issues, whatever the memory holds. -/
theorem SDL_SoundCallback_copies (dma : dma_t) (stream : List Byte) (len : Int) :
    (SDL_SoundCallback dma stream len).copies =
      if wrap32 (wrap32 (shl1 dma.samplepos + len) - shl1 dma.samples) < 0 then
        [Copy.mk 0 (shl1 dma.samplepos) len]
      else
        [Copy.mk 0 (shl1 dma.samplepos) (wrap32 (shl1 dma.samples - shl1 dma.samplepos)),
         Copy.mk (wrap32 (shl1 dma.samples - shl1 dma.samplepos)) 0
           (wrap32 (wrap32 (shl1 dma.samplepos + len) - shl1 dma.samples))] := by
  unfold SDL_SoundCallback
  simp only []
  split <;> simp [memcpy_copies]

/-- The `dma` the callback leaves when cursor and request are in range. -/
theorem SDL_SoundCallback_cursor (dma : dma_t) (stream : List Byte) (len : Int)
    (h0 : 0 ≤ dma.samplepos) (h1 : dma.samplepos < dma.samples)
    (hS : 2 * dma.samples ≤ 2147483647) (hl0 : 0 ≤ len) (hl1 : len ≤ 2 * dma.samples) :
    (SDL_SoundCallback dma stream len).dma =
      { dma with
        samplepos :=
          if 2 * dma.samplepos + len - 2 * dma.samples < 0 then dma.samplepos + len / 2
          else (2 * dma.samplepos + len - 2 * dma.samples) / 2 } := by
  have e1 : shl1 dma.samples = 2 * dma.samples := by unfold shl1 wrap32; omega
  have e2 : shl1 dma.samplepos = 2 * dma.samplepos := by unfold shl1 wrap32; omega
  have e3 : wrap32 (wrap32 (2 * dma.samplepos + len) - 2 * dma.samples)
      = 2 * dma.samplepos + len - 2 * dma.samples := by unfold wrap32; omega
  have e4 : wrap32 (dma.samplepos + len / 2) = dma.samplepos + len / 2 := by
    unfold wrap32; omega
  rw [SDL_SoundCallback_dma]
  simp only [e1, e2, e3, shr1, e4]

/-! ## The clock, poll by poll -/

/-- What a poll computes when no reset fires and no signed operation overflows. -/
theorem SNDDMA_GetSoundtime_exact (g : Backend)
    (hc : (SNDDMA_GetSoundtime g).calls = [])
    (ho : (SNDDMA_GetSoundtime g).overflow = false) :
    (SNDDMA_GetSoundtime g).state.buffers
        = (if g.dma.samplepos < g.oldsamplepos then g.buffers + 1 else g.buffers) ∧
    (SNDDMA_GetSoundtime g).ret
        = (SNDDMA_GetSoundtime g).state.buffers * half g.dma.samples + half g.dma.samplepos := by
  by_cases hw : g.dma.samplepos < g.oldsamplepos
  · by_cases hp : g.paintedtime > 0x40000000
    · simp [SNDDMA_GetSoundtime, SNDDMA_GetDMAPos, hw, hp] at hc
    · simp only [SNDDMA_GetSoundtime, SNDDMA_GetDMAPos, hw, hp, decide_True, decide_False,
        Bool.and_false, Bool.true_and, if_true, Bool.false_eq_true, if_false,
        Bool.or_eq_false_iff, Bool.not_eq_false', isInt_iff] at ho ⊢
      obtain ⟨⟨hb, hprod⟩, hsum⟩ := ho
      have eb : wrap32 (g.buffers + 1) = g.buffers + 1 := wrap32_of_isInt hb.1 hb.2
      rw [eb] at hprod hsum ⊢
      have ep := wrap32_of_isInt hprod.1 hprod.2
      rw [ep] at hsum ⊢
      exact ⟨rfl, wrap32_of_isInt hsum.1 hsum.2⟩
  · simp only [SNDDMA_GetSoundtime, SNDDMA_GetDMAPos, hw, decide_False,
      Bool.false_and, if_false, Bool.false_eq_true,
      Bool.or_eq_false_iff, Bool.not_eq_false', isInt_iff, Bool.false_or] at ho ⊢
    obtain ⟨hprod, hsum⟩ := ho
    have ep := wrap32_of_isInt hprod.1 hprod.2
    rw [ep] at hsum ⊢
    exact ⟨trivial, wrap32_of_isInt hsum.1 hsum.2⟩

/-- What a poll returns when no reset fires and the three signed results fit an `int`. -/
theorem SNDDMA_GetSoundtime_in_range (g : Backend) (b : Int)
    (hc : (SNDDMA_GetSoundtime g).calls = [])
    (hb : b = if g.dma.samplepos < g.oldsamplepos then g.buffers + 1 else g.buffers)
    (h1 : -2147483648 ≤ b ∧ b ≤ 2147483647)
    (h2 : -2147483648 ≤ b * half g.dma.samples ∧ b * half g.dma.samples ≤ 2147483647)
    (h3 : -2147483648 ≤ b * half g.dma.samples + half g.dma.samplepos ∧
      b * half g.dma.samples + half g.dma.samplepos ≤ 2147483647) :
    (SNDDMA_GetSoundtime g).overflow = false ∧
    (SNDDMA_GetSoundtime g).state = { g with buffers := b, oldsamplepos := g.dma.samplepos } ∧
    (SNDDMA_GetSoundtime g).ret = b * half g.dma.samples + half g.dma.samplepos := by
  by_cases hw : g.dma.samplepos < g.oldsamplepos
  · rw [if_pos hw] at hb
    subst hb
    by_cases hp : g.paintedtime > 0x40000000
    · simp [SNDDMA_GetSoundtime, SNDDMA_GetDMAPos, hw, hp] at hc
    · have eb : wrap32 (g.buffers + 1) = g.buffers + 1 := wrap32_of_isInt h1.1 h1.2
      simp only [SNDDMA_GetSoundtime, SNDDMA_GetDMAPos, hw, hp, decide_True, decide_False,
        Bool.and_false, Bool.true_and, if_true, Bool.false_eq_true, if_false, eb]
      rw [wrap32_of_isInt h2.1 h2.2, wrap32_of_isInt h3.1 h3.2,
        (isInt_iff _).2 h1, (isInt_iff _).2 h2, (isInt_iff _).2 h3]
      simp
  · rw [if_neg hw] at hb
    subst hb
    simp only [SNDDMA_GetSoundtime, SNDDMA_GetDMAPos, hw, decide_False,
      Bool.false_and, if_false, Bool.false_eq_true]
    rw [wrap32_of_isInt h2.1 h2.2, wrap32_of_isInt h3.1 h3.2,
      (isInt_iff _).2 h2, (isInt_iff _).2 h3]
    simp

theorem polls_cons (g : Backend) (p : Poll) (ps : List Poll) :
    polls g (p :: ps) =
      SNDDMA_GetSoundtime (observe g p) :: polls (SNDDMA_GetSoundtime (observe g p)).state ps :=
  rfl

/-- One poll does not step back from the value the stored wrap count and cursor stand for. -/
theorem SNDDMA_GetSoundtime_step (g : Backend) (p : Poll)
    (hold : 0 ≤ g.oldsamplepos ∧ g.oldsamplepos < g.dma.samples)
    (hcur : 0 ≤ p.samplepos ∧ p.samplepos < g.dma.samples)
    (hc : (SNDDMA_GetSoundtime (observe g p)).calls = [])
    (ho : (SNDDMA_GetSoundtime (observe g p)).overflow = false) :
    g.buffers * half g.dma.samples + half g.oldsamplepos
      ≤ (SNDDMA_GetSoundtime (observe g p)).ret := by
  obtain ⟨hb, hr⟩ := SNDDMA_GetSoundtime_exact (observe g p) hc ho
  rw [hr, hb]
  simp only [observe]
  rw [half_of_nonneg hold.1, half_of_nonneg hcur.1, half_of_nonneg (by omega : 0 ≤ g.dma.samples)]
  by_cases hw : p.samplepos < g.oldsamplepos
  · rw [if_pos hw, add_mul, one_mul]
    omega
  · rw [if_neg hw]
    omega

/-- From a state whose last observed cursor is in range, every later poll
returns at least the value that state stands for, and the returned values
never decrease. -/
theorem polls_lower_bound (ps : List Poll) :
    ∀ g : Backend, (0 ≤ g.oldsamplepos ∧ g.oldsamplepos < g.dma.samples) →
      (∀ p ∈ ps, 0 ≤ p.samplepos ∧ p.samplepos < g.dma.samples) →
      (∀ r ∈ polls g ps, r.calls = [] ∧ r.overflow = false) →
      (∀ r ∈ polls g ps, g.buffers * half g.dma.samples + half g.oldsamplepos ≤ r.ret) ∧
      List.Pairwise (fun a b => a ≤ b) ((polls g ps).map Soundtime.ret) := by
  induction ps with
  | nil => intro g _ _ _; simp [polls]
  | cons p ps ih =>
    intro g hold hcur hok
    rw [polls_cons] at hok ⊢
    have hp := hcur p (List.mem_cons_self _ _)
    have h1 := hok _ (List.mem_cons_self _ _)
    have hstep := SNDDMA_GetSoundtime_step g p hold hp h1.1 h1.2
    obtain ⟨-, hr⟩ := SNDDMA_GetSoundtime_exact (observe g p) h1.1 h1.2
    have hih := ih (SNDDMA_GetSoundtime (observe g p)).state hp
      (fun q hq => hcur q (List.mem_cons_of_mem _ hq))
      (fun r hr => hok r (List.mem_cons_of_mem _ hr))
    have hbound : ∀ r ∈ polls (SNDDMA_GetSoundtime (observe g p)).state ps,
        (SNDDMA_GetSoundtime (observe g p)).ret ≤ r.ret := by
      intro r hrm
      have := hih.1 r hrm
      rw [hr]
      exact this
    constructor
    · intro r hrm
      rcases List.mem_cons.1 hrm with h | h
      · rw [h]; exact hstep
      · exact le_trans hstep (hbound r h)
    · rw [List.map_cons, List.pairwise_cons]
      refine ⟨?_, hih.2⟩
      intro v hv
      obtain ⟨r, hrm, rfl⟩ := List.mem_map.1 hv
      exact hbound r hrm

/-! ## Interleavings -/

/-- With a capacity that is not positive no poll is paced. -/
theorem run_no_poll (es : List Event) :
    ∀ (g : Backend) (bytes cap since : Int), cap ≤ 0 → 0 ≤ since →
      evenLens cap es = true → paced cap since es = true →
      run g es = [] ∧ delivered bytes es = [] := by
  induction es with
  | nil => intro g bytes cap since _ _ _ _; exact ⟨rfl, rfl⟩
  | cons e es ih =>
    intro g bytes cap since hcap hsince hlens hpaced
    cases e with
    | callback stream len =>
      simp only [evenLens, Bool.and_eq_true, decide_eq_true_eq] at hlens
      simp only [paced] at hpaced
      simp only [run, delivered]
      exact ih _ _ cap (since + len) hcap (by omega) hlens.2 hpaced
    | poll t =>
      simp only [paced, Bool.and_eq_true, decide_eq_true_eq] at hpaced
      omega

set_option maxHeartbeats 2000000 in
/-- The invariant of an interleaving: with `T` samples delivered in all and `D`
of them since the last poll, the cursor is `T mod S`, the last observed cursor
`(T - D) mod S` and the wrap count `(T - D) / S`; every poll then returns half
the samples delivered. -/
theorem run_counts (es : List Event) :
    ∀ (g : Backend) (T D : Int),
      0 < g.dma.samples → g.dma.samples % 2 = 0 → 2 * g.dma.samples ≤ 2147483647 →
      0 ≤ D → D ≤ T →
      g.dma.samplepos = T % g.dma.samples →
      g.oldsamplepos = (T - D) % g.dma.samples →
      g.buffers = (T - D) / g.dma.samples →
      evenLens (2 * g.dma.samples) es = true →
      paced (2 * g.dma.samples) (2 * D) es = true →
      (∀ r ∈ run g es, r.calls = []) →
      (∀ b ∈ delivered (2 * T) es, b / 2 / 2 ≤ 2147483647) →
      (run g es).map Soundtime.ret = (delivered (2 * T) es).map (fun b => b / 2 / 2) ∧
      ∀ r ∈ run g es, r.overflow = false := by
  induction es with
  | nil => intro g T D _ _ _ _ _ _ _ _ _ _ _ _; simp [run, delivered]
  | cons e es ih =>
    intro g T D hS hev hint hD0 hDT hsp hold hbuf hlens hpaced hreset hrep
    have hc0 := Int.emod_nonneg T (ne_of_gt hS)
    have hc1 := Int.emod_lt_of_pos T hS
    cases e with
    | callback stream len =>
      simp only [evenLens, Bool.and_eq_true, decide_eq_true_eq] at hlens
      obtain ⟨⟨⟨hl0, hl1⟩, hle⟩, hrest⟩ := hlens
      simp only [paced] at hpaced
      simp only [run, delivered] at hreset hrep ⊢
      have hdma : (SDL_SoundCallback g.dma stream len).dma
          = { g.dma with samplepos := (T + len / 2) % g.dma.samples } := by
        rw [SDL_SoundCallback_cursor g.dma stream len (by omega) (by omega) hint hl0 hl1,
          cursor_arith g.dma.samples g.dma.samplepos len (by omega) (by omega) hl0 hl1 hle,
          hsp, Int.emod_add_emod]
      rw [hdma] at hreset ⊢
      have e1 : 2 * T + len = 2 * (T + len / 2) := by omega
      have e2 : 2 * D + len = 2 * (D + len / 2) := by omega
      rw [e1] at hrep ⊢
      rw [e2] at hpaced
      refine ih _ (T + len / 2) (D + len / 2) hS hev hint (by omega) (by omega) rfl ?_ ?_
        hrest hpaced hreset hrep
      · show g.oldsamplepos = _
        rw [hold]; congr 1; omega
      · show g.buffers = _
        rw [hbuf]; congr 1; omega
    | poll t =>
      simp only [evenLens] at hlens
      simp only [paced, Bool.and_eq_true, decide_eq_true_eq] at hpaced
      obtain ⟨hDS, hpaced⟩ := hpaced
      simp only [run, delivered, List.mem_cons, forall_eq_or_imp] at hreset hrep ⊢
      obtain ⟨hr1, hreset⟩ := hreset
      obtain ⟨hrep1, hrep⟩ := hrep
      have hT0 : 0 ≤ T := by omega
      have hlap := lap_arith g.dma.samples T D hS hD0 (by omega)
      have hh : half g.dma.samples = g.dma.samples / 2 := half_of_nonneg (le_of_lt hS)
      have hhc : half (T % g.dma.samples) = T % g.dma.samples / 2 := half_of_nonneg hc0
      have hhalf := half_arith g.dma.samples T hev
      have hb : T / g.dma.samples =
          if ({ g with paintedtime := t } : Backend).dma.samplepos
              < ({ g with paintedtime := t } : Backend).oldsamplepos
          then ({ g with paintedtime := t } : Backend).buffers + 1
          else ({ g with paintedtime := t } : Backend).buffers := by
        show T / g.dma.samples = if g.dma.samplepos < g.oldsamplepos then g.buffers + 1
          else g.buffers
        rw [hsp, hold, hbuf]
        split
        · exact hlap.1 (by assumption)
        · exact hlap.2 (by assumption)
      have hbd := clock_bounds g.dma.samples T hS hev hT0 (by omega)
      have hres := SNDDMA_GetSoundtime_in_range { g with paintedtime := t }
        (T / g.dma.samples) hr1 hb hbd.1
        (by show _ ≤ T / g.dma.samples * half g.dma.samples ∧
              T / g.dma.samples * half g.dma.samples ≤ _
            rw [hh]; exact hbd.2.1)
        (by show _ ≤ T / g.dma.samples * half g.dma.samples + half g.dma.samplepos ∧
              T / g.dma.samples * half g.dma.samples + half g.dma.samplepos ≤ _
            rw [hh, hsp, hhc]; exact hbd.2.2)
      obtain ⟨hov, hst, hret⟩ := hres
      rw [hst] at hreset ⊢
      simp only at hreset ⊢
      have hp0 : paced (2 * g.dma.samples) (2 * 0) es = true := by
        rw [mul_zero]; exact hpaced
      have ho0 : g.dma.samplepos = (T - 0) % g.dma.samples := by rw [hsp, sub_zero]
      have hb0 : T / g.dma.samples = (T - 0) / g.dma.samples := by rw [sub_zero]
      have hih := ih (Backend.mk g.dma t (T / g.dma.samples) g.dma.samplepos) T 0
        hS hev hint (le_refl 0) hT0 hsp ho0 hb0 hlens hp0 hreset hrep
      refine ⟨?_, hov, hih.2⟩
      rw [List.map_cons, List.map_cons, hih.1, hret]
      congr 1
      show T / g.dma.samples * half g.dma.samples + half g.dma.samplepos = _
      rw [hh, hsp, hhc, hhalf]
      clear hih hret hst hov hb hreset hr1 hrep
      omega

/-! ## Shutdown, call by call -/

/-- The state every shutdown leaves. -/
theorem SNDDMA_Shutdown_state (f : Int → Int) (g : Backend) :
    (SNDDMA_Shutdown f g).1 =
      { g with dma := { g.dma with initialized := false, buffer := none } } := by
  unfold SNDDMA_Shutdown
  dsimp only
  cases hb : g.dma.buffer with
  | none =>
    obtain ⟨⟨fmt, s, sp, sf, b, i⟩, pt, bf, old⟩ := g
    simp only at hb
    subst hb
    rfl
  | some b => rfl

/-- A shutdown calls `Z_Free` once when a buffer is allocated and not at all otherwise. -/
theorem SNDDMA_Shutdown_frees (f : Int → Int) (g : Backend) :
    (SNDDMA_Shutdown f g).2.count Call.Z_Free = if g.dma.buffer.isSome then 1 else 0 := by
  cases hb : g.dma.buffer with
  | none =>
    simp only [SNDDMA_Shutdown, hb]
    split <;> split <;> rfl
  | some b =>
    simp only [SNDDMA_Shutdown, hb]
    split <;> split <;> rfl

theorem shutdowns_frees (fs : List (Int → Int)) :
    ∀ g : Backend, g.dma.buffer = none → (shutdowns g fs).2.count Call.Z_Free = 0 := by
  induction fs with
  | nil => intro g _; rfl
  | cons f fs ih =>
    intro g hb
    simp only [shutdowns, List.count_append]
    rw [SNDDMA_Shutdown_frees, hb, ih _ (by rw [SNDDMA_Shutdown_state])]
    rfl

/-! ## The callback: what it delivers -/

/-- C1. The callback delivers a circular read of the ring buffer: for a buffer
of `2 * S` bytes (a size an `int` holds), a cursor `rc < S` and a request of
`len ≤ 2 * S` bytes into an output region of `len` bytes, no access leaves its
region, the region still holds `len` bytes, and its byte `i` is the buffer's
byte `(2 * rc + i) mod (2 * S)` for every `i < len`. -/
theorem SDL_SoundCallback_circular_read (dma : dma_t) (buf stream : List Byte)
    (S rc len : Nat)
    (hS : dma.samples = S) (hrc : dma.samplepos = rc)
    (hb : dma.buffer = some buf) (hcap : buf.length = 2 * S) (hint : 2 * S ≤ 2147483647)
    (hpos : rc < S) (hlen : len ≤ 2 * S) (hs : stream.length = len) :
    (SDL_SoundCallback dma stream len).fault = false ∧
    (SDL_SoundCallback dma stream len).stream.length = len ∧
    ∀ i : Nat, i < len →
      ∃ b : Byte, (SDL_SoundCallback dma stream len).stream[i]? = some b ∧
        buf[(2 * rc + i) % (2 * S)]? = some b := by
  by_cases hw : 2 * rc + len < 2 * S
  · rw [SDL_SoundCallback_straight dma buf stream len (by omega) (by omega) (by omega)
      (by omega) hb (by omega) (by omega) (by omega)]
    refine ⟨rfl, ?_, ?_⟩
    · show (splice _ _ _ _ _).length = len
      rw [length_splice] <;> omega
    · intro i hi
      have hi2 : 2 * rc + i < buf.length := by omega
      refine ⟨buf[2 * rc + i], ?_, ?_⟩
      · show (splice _ _ _ _ _)[i]? = _
        rw [getElem?_splice _ _ _ _ _ _ (by omega) (by omega), if_pos (by omega),
          ← List.getElem?_eq_getElem hi2]
        congr 1; omega
      · rw [Nat.mod_eq_of_lt (by omega), List.getElem?_eq_getElem hi2]
  · have hrem : (2 * dma.samples - 2 * dma.samplepos).toNat = 2 * S - 2 * rc := by omega
    have hwr : (2 * dma.samplepos + (len : Int) - 2 * dma.samples).toNat
        = 2 * rc + len - 2 * S := by omega
    have hp : (2 * dma.samplepos).toNat = 2 * rc := by omega
    rw [SDL_SoundCallback_wrapped dma buf stream len (by omega) (by omega) (by omega)
      (by omega) hb (by omega) (by omega) (by omega)]
    simp only [hrem, hwr, hp]
    have hin : (splice stream 0 buf (2 * rc) (2 * S - 2 * rc)).length = stream.length := by
      apply length_splice <;> omega
    refine ⟨trivial, ?_, ?_⟩
    · rw [length_splice _ _ _ _ _ (by omega) (by omega), hin, hs]
    · intro i hi
      rw [getElem?_splice _ _ _ _ _ _ (by omega) (by omega)]
      by_cases hi1 : i < 2 * S - 2 * rc
      · have hi2 : 2 * rc + i < buf.length := by omega
        refine ⟨buf[2 * rc + i], ?_, ?_⟩
        · rw [if_neg (by omega), getElem?_splice _ _ _ _ _ _ (by omega) (by omega),
            if_pos (by omega), ← List.getElem?_eq_getElem hi2]
          congr 1
        · rw [Nat.mod_eq_of_lt (by omega), List.getElem?_eq_getElem hi2]
      · have hi2 : i - (2 * S - 2 * rc) < buf.length := by omega
        refine ⟨buf[i - (2 * S - 2 * rc)], ?_, ?_⟩
        · rw [if_pos (by omega), ← List.getElem?_eq_getElem hi2]
          congr 1; omega
        · rw [Nat.mod_eq_sub_mod (by omega), Nat.mod_eq_of_lt (by omega),
            ← List.getElem?_eq_getElem hi2]
          congr 1; omega

/-- Witness of C1: four bytes read from the last sample of a buffer of four
samples wrap to its start. -/
theorem SDL_SoundCallback_circular_read_witness :
    (SDL_SoundCallback demo_dma [0, 0, 0, 0] ((4 : Nat) : Int)).stream = [16, 17, 10, 11] ∧
    (SDL_SoundCallback demo_dma [0, 0, 0, 0] ((4 : Nat) : Int)).fault = false ∧
    (SDL_SoundCallback demo_dma [0, 0, 0, 0] ((4 : Nat) : Int)).stream.length = 4 ∧
    ∀ i : Nat, i < 4 →
      ∃ b : Byte,
        (SDL_SoundCallback demo_dma [0, 0, 0, 0] ((4 : Nat) : Int)).stream[i]? = some b ∧
        demo_buffer[(2 * 3 + i) % (2 * 4)]? = some b :=
  ⟨by decide,
    SDL_SoundCallback_circular_read demo_dma demo_buffer [0, 0, 0, 0] 4 3 4
      rfl rfl rfl rfl (by decide) (by decide) (by decide) rfl⟩

/-- C2. Cursor advance: for a cursor in range and an even request of at most
the capacity in bytes (a size an `int` holds), the cursor after the call is
`(samplepos + len / 2) mod samples`; it is in range again and the capacity is
unchanged. -/
theorem SDL_SoundCallback_cursor_advance (dma : dma_t) (stream : List Byte) (len : Int)
    (h0 : 0 ≤ dma.samplepos) (h1 : dma.samplepos < dma.samples)
    (hS : 2 * dma.samples ≤ 2147483647)
    (hl0 : 0 ≤ len) (hl1 : len ≤ 2 * dma.samples) (heven : len % 2 = 0) :
    (SDL_SoundCallback dma stream len).dma.samplepos
        = (dma.samplepos + len / 2) % dma.samples ∧
      0 ≤ (SDL_SoundCallback dma stream len).dma.samplepos ∧
      (SDL_SoundCallback dma stream len).dma.samplepos
        < (SDL_SoundCallback dma stream len).dma.samples ∧
      (SDL_SoundCallback dma stream len).dma.samples = dma.samples := by
  have hd := SDL_SoundCallback_cursor dma stream len h0 h1 hS hl0 hl1
  have hm := cursor_arith dma.samples dma.samplepos len h0 h1 hl0 hl1 heven
  rw [hd]
  simp only
  rw [hm]
  exact ⟨rfl, Int.emod_nonneg _ (by omega), Int.emod_lt_of_pos _ (by omega), trivial⟩

/-- Witness of C2: from cursor 3 of 4, four bytes move the cursor to 1. -/
theorem SDL_SoundCallback_cursor_advance_witness :
    (SDL_SoundCallback demo_dma [0, 0, 0, 0] 4).dma.samplepos = 1 ∧
    (SDL_SoundCallback demo_dma [0, 0, 0, 0] 4).dma.samplepos
        = (demo_dma.samplepos + 4 / 2) % demo_dma.samples ∧
      0 ≤ (SDL_SoundCallback demo_dma [0, 0, 0, 0] 4).dma.samplepos ∧
      (SDL_SoundCallback demo_dma [0, 0, 0, 0] 4).dma.samplepos
        < (SDL_SoundCallback demo_dma [0, 0, 0, 0] 4).dma.samples ∧
      (SDL_SoundCallback demo_dma [0, 0, 0, 0] 4).dma.samples = demo_dma.samples :=
  ⟨by decide,
    SDL_SoundCallback_cursor_advance demo_dma [0, 0, 0, 0] 4
      (by decide) (by decide) (by decide) (by decide) (by decide) (by decide)⟩

/-- Counterexample to C4 as stated: on the stereo device, with cursor 64512
and a request of 2048 bytes, `pos + len` equals the capacity of 131072 bytes,
and the callback still issues two copies, of 2048 bytes and of none. -/
theorem SDL_SoundCallback_boundary_two_copies :
    0 ≤ boundary_dma.samplepos ∧ boundary_dma.samplepos < boundary_dma.samples ∧
    2 * boundary_dma.samplepos + 2048 ≤ 2 * boundary_dma.samples ∧
    (SDL_SoundCallback boundary_dma (List.replicate 2048 0) 2048).copies
      = [Copy.mk 0 129024 2048, Copy.mk 2048 0 0] ∧
    (SDL_SoundCallback boundary_dma (List.replicate 2048 0) 2048).copies.length = 2 := by
  rw [SDL_SoundCallback_copies]
  decide

/-- C4, amended. Wrap split: for a cursor in range and `0 ≤ len ≤ 2 * samples`,
with `pos = 2 * samplepos`: if `pos + len < 2 * samples` the callback issues
exactly one copy, of `len` bytes; if `pos + len ≥ 2 * samples` it issues exactly
two, the first of `2 * samples - pos` bytes from `pos`, the second of
`pos + len - 2 * samples` bytes (none when the request ends at the end of the
buffer) from the start; either way the lengths sum to `len`. -/
theorem SDL_SoundCallback_wrap_split (dma : dma_t) (stream : List Byte) (len : Int)
    (h0 : 0 ≤ dma.samplepos) (h1 : dma.samplepos < dma.samples)
    (hS : 2 * dma.samples ≤ 2147483647)
    (hl0 : 0 ≤ len) (hl1 : len ≤ 2 * dma.samples) :
    (2 * dma.samplepos + len < 2 * dma.samples →
      (SDL_SoundCallback dma stream len).copies = [Copy.mk 0 (2 * dma.samplepos) len]) ∧
    (2 * dma.samples ≤ 2 * dma.samplepos + len →
      (SDL_SoundCallback dma stream len).copies =
        [Copy.mk 0 (2 * dma.samplepos) (2 * dma.samples - 2 * dma.samplepos),
         Copy.mk (2 * dma.samples - 2 * dma.samplepos) 0
           (2 * dma.samplepos + len - 2 * dma.samples)]) ∧
    ((SDL_SoundCallback dma stream len).copies.map Copy.n).sum = len := by
  have e1 : shl1 dma.samples = 2 * dma.samples := by unfold shl1 wrap32; omega
  have e2 : shl1 dma.samplepos = 2 * dma.samplepos := by unfold shl1 wrap32; omega
  have e3 : wrap32 (wrap32 (2 * dma.samplepos + len) - 2 * dma.samples)
      = 2 * dma.samplepos + len - 2 * dma.samples := by unfold wrap32; omega
  have e4 : wrap32 (2 * dma.samples - 2 * dma.samplepos)
      = 2 * dma.samples - 2 * dma.samplepos := by unfold wrap32; omega
  rw [SDL_SoundCallback_copies, e1, e2, e3, e4]
  by_cases hw : 2 * dma.samplepos + len - 2 * dma.samples < 0
  · rw [if_pos hw]
    refine ⟨fun _ => rfl, fun h => ?_, ?_⟩
    · omega
    · simp
  · rw [if_neg hw]
    refine ⟨fun h => ?_, fun _ => rfl, ?_⟩
    · omega
    · simp only [List.map_cons, List.map_nil, List.sum_cons, List.sum_nil]
      omega

/-- Witness of C4: a request of two bytes from cursor 64512 of 65536 is one
copy, a request of four bytes from cursor 3 of 4 is two copies of two bytes
each. -/
theorem SDL_SoundCallback_wrap_split_witness :
    (SDL_SoundCallback boundary_dma [0, 0] 2).copies
      = [Copy.mk 0 (2 * boundary_dma.samplepos) 2] ∧
    (SDL_SoundCallback demo_dma [0, 0, 0, 0] 4).copies =
      [Copy.mk 0 (2 * demo_dma.samplepos) (2 * demo_dma.samples - 2 * demo_dma.samplepos),
       Copy.mk (2 * demo_dma.samples - 2 * demo_dma.samplepos) 0
         (2 * demo_dma.samplepos + 4 - 2 * demo_dma.samples)] ∧
    ((SDL_SoundCallback demo_dma [0, 0, 0, 0] 4).copies.map Copy.n).sum = 4 :=
  ⟨(SDL_SoundCallback_wrap_split boundary_dma [0, 0] 2
      (by decide) (by decide) (by decide) (by decide) (by decide)).1 (by decide),
    (SDL_SoundCallback_wrap_split demo_dma [0, 0, 0, 0] 4
      (by decide) (by decide) (by decide) (by decide) (by decide)).2.1 (by decide),
    (SDL_SoundCallback_wrap_split demo_dma [0, 0, 0, 0] 4
      (by decide) (by decide) (by decide) (by decide) (by decide)).2.2⟩

/-- C5. Bounds safety: for a cursor in range, a buffer of `2 * samples` bytes
(a size an `int` holds) and a request of `0 ≤ len ≤ 2 * samples` bytes into an
output region of `len` bytes, no copy leaves its region: every byte index read
lies in `[0, 2 * samples)` and every byte index written lies in `[0, len)`. -/
theorem SDL_SoundCallback_in_bounds (dma : dma_t) (buf stream : List Byte) (len : Int)
    (h0 : 0 ≤ dma.samplepos) (h1 : dma.samplepos < dma.samples)
    (hS : 2 * dma.samples ≤ 2147483647)
    (hl0 : 0 ≤ len) (hl1 : len ≤ 2 * dma.samples)
    (hb : dma.buffer = some buf) (hbl : (buf.length : Int) = 2 * dma.samples)
    (hs : (stream.length : Int) = len) :
    (SDL_SoundCallback dma stream len).fault = false ∧
    ∀ c ∈ (SDL_SoundCallback dma stream len).copies, ∀ k : Int, 0 ≤ k → k < c.n →
      (0 ≤ c.src + k ∧ c.src + k < 2 * dma.samples) ∧ (0 ≤ c.dst + k ∧ c.dst + k < len) := by
  by_cases hw : 2 * dma.samplepos + len < 2 * dma.samples
  · rw [SDL_SoundCallback_straight dma buf stream len h0 h1 hS hl0 hb hbl hs hw]
    refine ⟨rfl, ?_⟩
    intro c hc k hk0 hk1
    simp only [List.mem_singleton] at hc
    subst hc
    simp only at hk1 ⊢
    omega
  · rw [SDL_SoundCallback_wrapped dma buf stream len h0 h1 hS hl1 hb hbl hs (by omega)]
    refine ⟨rfl, ?_⟩
    intro c hc k hk0 hk1
    simp only [List.mem_cons, List.mem_singleton, List.mem_nil_iff, or_false] at hc
    rcases hc with hc | hc
    · subst hc
      simp only at hk1 ⊢
      omega
    · subst hc
      simp only at hk1 ⊢
      omega

/-- Witness of C5: the wrapping request of four bytes from cursor 3 of 4. -/
theorem SDL_SoundCallback_in_bounds_witness :
    (SDL_SoundCallback demo_dma [0, 0, 0, 0] 4).fault = false ∧
    ∀ c ∈ (SDL_SoundCallback demo_dma [0, 0, 0, 0] 4).copies, ∀ k : Int, 0 ≤ k → k < c.n →
      (0 ≤ c.src + k ∧ c.src + k < 2 * demo_dma.samples) ∧ (0 ≤ c.dst + k ∧ c.dst + k < 4) :=
  SDL_SoundCallback_in_bounds demo_dma demo_buffer [0, 0, 0, 0] 4
    (by decide) (by decide) (by decide) (by decide) (by decide) rfl (by decide) (by decide)

/-! ## The clock: what it returns -/

/-- C3. Monotonicity: over any sequence of polls whose observed cursors lie in
`[0, samples)`, in which no overflow reset fires and no signed operation
overflows, the returned values never decrease. -/
theorem SNDDMA_GetSoundtime_monotone (g : Backend) (ps : List Poll)
    (hcur : ∀ p ∈ ps, 0 ≤ p.samplepos ∧ p.samplepos < g.dma.samples)
    (hok : ∀ r ∈ polls g ps, r.calls = [] ∧ r.overflow = false) :
    List.Pairwise (fun a b => a ≤ b) ((polls g ps).map Soundtime.ret) := by
  cases ps with
  | nil => simp [polls]
  | cons p ps =>
    rw [polls_cons] at hok ⊢
    have hp := hcur p (List.mem_cons_self _ _)
    have h1 := hok _ (List.mem_cons_self _ _)
    obtain ⟨-, hr⟩ := SNDDMA_GetSoundtime_exact (observe g p) h1.1 h1.2
    have hih := polls_lower_bound ps (SNDDMA_GetSoundtime (observe g p)).state hp
      (fun q hq => hcur q (List.mem_cons_of_mem _ hq))
      (fun r hr => hok r (List.mem_cons_of_mem _ hr))
    rw [List.map_cons, List.pairwise_cons]
    refine ⟨?_, hih.2⟩
    intro v hv
    obtain ⟨r, hrm, rfl⟩ := List.mem_map.1 hv
    have := hih.1 r hrm
    rw [hr]
    exact this

/-- Witness of C3: the polls at the cursors 100, 100, 50 and 200 of the stereo
device return 50, 50, 32793 and 32868. -/
theorem SNDDMA_GetSoundtime_monotone_witness :
    (polls clock_state demo_polls).map Soundtime.ret = [50, 50, 32793, 32868] ∧
    List.Pairwise (fun a b => a ≤ b) ((polls clock_state demo_polls).map Soundtime.ret) :=
  ⟨by decide, SNDDMA_GetSoundtime_monotone clock_state demo_polls (by decide) (by decide)⟩

/-- C6. Wrap detection: a poll that fires no overflow reset, on a wrap count
that an `int` can still increment, raises the wrap count by exactly one when
the observed cursor is strictly below the last observed one and leaves it alone
otherwise, equality included; so the cursors 100, 100, 50 and 200, polled from
wrap count 0 and last cursor 0 with no reset, leave the wrap counts 0, 0, 1, 1:
one wrap, at the step from 100 to 50. -/
theorem SNDDMA_GetSoundtime_wrap_detection (g g0 : Backend) (t1 t2 t3 t4 : Int) :
    ((SNDDMA_GetSoundtime g).calls = [] →
      -2147483648 ≤ g.buffers → g.buffers < 2147483647 →
      (g.dma.samplepos < g.oldsamplepos →
        (SNDDMA_GetSoundtime g).state.buffers = g.buffers + 1) ∧
      (g.oldsamplepos ≤ g.dma.samplepos →
        (SNDDMA_GetSoundtime g).state.buffers = g.buffers)) ∧
    (g0.buffers = 0 → g0.oldsamplepos = 0 →
      (∀ r ∈ polls g0 [Poll.mk 100 t1, Poll.mk 100 t2, Poll.mk 50 t3, Poll.mk 200 t4],
        r.calls = []) →
      (polls g0 [Poll.mk 100 t1, Poll.mk 100 t2, Poll.mk 50 t3, Poll.mk 200 t4]).map
        (fun r => r.state.buffers) = [0, 0, 1, 1]) := by
  constructor
  · intro hc hlo hhi
    constructor
    · intro hw
      by_cases hp : g.paintedtime > 0x40000000
      · simp [SNDDMA_GetSoundtime, SNDDMA_GetDMAPos, hw, hp] at hc
      · simp only [SNDDMA_GetSoundtime, SNDDMA_GetDMAPos, hw, hp, decide_True, decide_False,
          Bool.and_false, if_true, Bool.false_eq_true, if_false]
        exact wrap32_of_isInt (by omega) (by omega)
    · intro hw
      have hw2 : ¬ g.dma.samplepos < g.oldsamplepos := by omega
      simp [SNDDMA_GetSoundtime, SNDDMA_GetDMAPos, hw2]
  · intro hb hold hc
    have h3 : ¬ t3 > 0x40000000 := by
      intro hgt
      have := hc (SNDDMA_GetSoundtime (observe (SNDDMA_GetSoundtime (observe
        (SNDDMA_GetSoundtime (observe g0 (Poll.mk 100 t1))).state (Poll.mk 100 t2))).state
        (Poll.mk 50 t3))) (by simp [polls])
      simp [SNDDMA_GetSoundtime, SNDDMA_GetDMAPos, observe, hgt] at this
    simp [polls, SNDDMA_GetSoundtime, SNDDMA_GetDMAPos, observe, hb, hold, h3, wrap32]

/-- Witness of C6: a cursor at 100 after 200 raises the wrap count 7 to 8, an
unmoved cursor leaves it at 7, and the four polls flag one wrap. -/
theorem SNDDMA_GetSoundtime_wrap_detection_witness :
    (SNDDMA_GetSoundtime { wrapped_state with paintedtime := 0 }).state.buffers = 7 + 1 ∧
    (SNDDMA_GetSoundtime ceiling_state).state.buffers = 7 ∧
    (polls clock_state [Poll.mk 100 0, Poll.mk 100 0, Poll.mk 50 0, Poll.mk 200 0]).map
      (fun r => r.state.buffers) = [0, 0, 1, 1] :=
  ⟨((SNDDMA_GetSoundtime_wrap_detection { wrapped_state with paintedtime := 0 } clock_state
      0 0 0 0).1 (by decide) (by decide) (by decide)).1 (by decide),
    ((SNDDMA_GetSoundtime_wrap_detection ceiling_state clock_state
      0 0 0 0).1 (by decide) (by decide) (by decide)).2 (by decide),
    (SNDDMA_GetSoundtime_wrap_detection ceiling_state clock_state 0 0 0 0).2
      rfl rfl (by decide)⟩

/-- Counterexample to C7 as stated: `paintedtime` is past the ceiling and the
cursor has not moved since the last poll; the poll keeps the wrap count 7,
keeps `paintedtime` and does not call `S_StopAllSounds`. -/
theorem SNDDMA_GetSoundtime_no_reset_without_wrap :
    ceiling_state.paintedtime > 0x40000000 ∧
    (SNDDMA_GetSoundtime ceiling_state).state.buffers = 7 ∧
    (SNDDMA_GetSoundtime ceiling_state).state.paintedtime = 1073741825 ∧
    (SNDDMA_GetSoundtime ceiling_state).calls = [] := by
  decide

/-- C7, amended. Overflow reset: in a state whose `paintedtime` exceeds
`0x40000000`, a poll that observes a cursor strictly below the last observed
one sets the wrap count to 0, sets `paintedtime` to `samples / 2` and calls
`S_StopAllSounds` exactly once; a poll that observes any other cursor resets
nothing and calls nothing. -/
theorem SNDDMA_GetSoundtime_overflow_reset (g : Backend)
    (hp : g.paintedtime > 0x40000000) :
    (g.dma.samplepos < g.oldsamplepos →
      (SNDDMA_GetSoundtime g).state.buffers = 0 ∧
      (SNDDMA_GetSoundtime g).state.paintedtime = half g.dma.samples ∧
      (SNDDMA_GetSoundtime g).calls = [Call.S_StopAllSounds]) ∧
    (g.oldsamplepos ≤ g.dma.samplepos →
      (SNDDMA_GetSoundtime g).state.buffers = g.buffers ∧
      (SNDDMA_GetSoundtime g).state.paintedtime = g.paintedtime ∧
      (SNDDMA_GetSoundtime g).calls = []) := by
  constructor
  · intro hw
    simp [SNDDMA_GetSoundtime, SNDDMA_GetDMAPos, hw, hp]
  · intro hw
    have : ¬ g.dma.samplepos < g.oldsamplepos := by omega
    simp [SNDDMA_GetSoundtime, SNDDMA_GetDMAPos, this]

/-- Witness of C7: past the ceiling, the cursor 100 after 200 resets the clock
of the stereo device to wrap count 0 and `paintedtime` 32768. -/
theorem SNDDMA_GetSoundtime_overflow_reset_witness :
    wrapped_state.paintedtime > 0x40000000 ∧
    half wrapped_state.dma.samples = 32768 ∧
    (SNDDMA_GetSoundtime wrapped_state).state.buffers = 0 ∧
    (SNDDMA_GetSoundtime wrapped_state).state.paintedtime = half wrapped_state.dma.samples ∧
    (SNDDMA_GetSoundtime wrapped_state).calls = [Call.S_StopAllSounds] :=
  ⟨by decide, by decide,
    (SNDDMA_GetSoundtime_overflow_reset wrapped_state (by decide)).1 (by decide)⟩

/-- Counterexample to C9 as stated: with `initialized` false, a poll still
resets the wrap count 7 to 0, records the cursor 100, sets `paintedtime` to
32768 and calls `S_StopAllSounds`. -/
theorem SNDDMA_GetSoundtime_runs_when_uninitialized :
    closed_state.dma.initialized = false ∧
    (SNDDMA_GetSoundtime closed_state).state.buffers = 0 ∧
    (SNDDMA_GetSoundtime closed_state).state.oldsamplepos = 100 ∧
    (SNDDMA_GetSoundtime closed_state).state.paintedtime = 32768 ∧
    (SNDDMA_GetSoundtime closed_state).state ≠ closed_state ∧
    (SNDDMA_GetSoundtime closed_state).calls = [Call.S_StopAllSounds] := by
  decide

/-- C9, amended. With `initialized` false, `SNDDMA_GetDMAPos` only reads the
cursor, and `SNDDMA_GetSoundtime`, which does not look at `initialized`, never
touches `dma`; it leaves the whole state unchanged and calls nothing exactly
when the cursor equals the last observed cursor, and in every case it returns
the value, makes the calls and leaves the wrap count, last cursor and
`paintedtime` that it would with `initialized` true. -/
theorem SNDDMA_GetSoundtime_uninitialized (g : Backend) (hinit : g.dma.initialized = false) :
    SNDDMA_GetDMAPos g = g.dma.samplepos ∧
    (SNDDMA_GetSoundtime g).state.dma = g.dma ∧
    (((SNDDMA_GetSoundtime g).state = g ∧ (SNDDMA_GetSoundtime g).calls = [])
      ↔ g.dma.samplepos = g.oldsamplepos) ∧
    (SNDDMA_GetSoundtime { g with dma := { g.dma with initialized := true } }).ret
      = (SNDDMA_GetSoundtime g).ret ∧
    (SNDDMA_GetSoundtime { g with dma := { g.dma with initialized := true } }).calls
      = (SNDDMA_GetSoundtime g).calls ∧
    (SNDDMA_GetSoundtime { g with dma := { g.dma with initialized := true } }).state
      = { (SNDDMA_GetSoundtime g).state with dma := { g.dma with initialized := true } } := by
  refine ⟨rfl, rfl, ?_, rfl, rfl, rfl⟩
  constructor
  · rintro ⟨hst, -⟩
    have := congrArg Backend.oldsamplepos hst
    simpa [SNDDMA_GetSoundtime, SNDDMA_GetDMAPos] using this
  · intro h
    obtain ⟨dma, pt, b, old⟩ := g
    simp only at h
    subst h
    simp [SNDDMA_GetSoundtime, SNDDMA_GetDMAPos]

/-- Witness of C9: a shut down state whose cursor is the last observed one is
left as it is. -/
theorem SNDDMA_GetSoundtime_uninitialized_witness :
    idle_state.dma.initialized = false ∧
    (SNDDMA_GetSoundtime idle_state).state = idle_state ∧
    (SNDDMA_GetSoundtime idle_state).calls = [] :=
  ⟨rfl, (SNDDMA_GetSoundtime_uninitialized idle_state rfl).2.2.1.2 rfl⟩

/-- C10. The clock counts what the callback delivered: from cursor, wrap count
and last cursor 0, with an even capacity whose size in bytes an `int` holds,
over any interleaving of callbacks (each for an even number of bytes between 0
and the capacity in bytes) and polls in which fewer bytes than the capacity are
delivered before the first poll and between consecutive polls, in which no
reset fires and every value to be returned fits an `int`, each poll returns
half the number of samples delivered before it, rounded down (a quarter of the
bytes), and no signed operation overflows. -/
theorem clock_counts_delivered (g : Backend) (es : List Event)
    (hpos : g.dma.samplepos = 0) (hbuf : g.buffers = 0) (hold : g.oldsamplepos = 0)
    (hev : g.dma.samples % 2 = 0) (hint : 2 * g.dma.samples ≤ 2147483647)
    (hlens : evenLens (2 * g.dma.samples) es = true)
    (hpaced : paced (2 * g.dma.samples) 0 es = true)
    (hreset : ∀ r ∈ run g es, r.calls = [])
    (hrep : ∀ b ∈ delivered 0 es, b / 2 / 2 ≤ 2147483647) :
    (run g es).map Soundtime.ret = (delivered 0 es).map (fun b => b / 2 / 2) ∧
    ∀ r ∈ run g es, r.overflow = false := by
  by_cases hS : 0 < g.dma.samples
  · have h := run_counts es g 0 0 hS hev hint (le_refl 0) (le_refl 0)
      (by rw [hpos, Int.zero_emod]) (by rw [hold, sub_zero, Int.zero_emod])
      (by rw [hbuf, sub_zero, Int.zero_ediv])
      hlens (by rw [mul_zero]; exact hpaced) hreset (by rw [mul_zero]; exact hrep)
    rw [mul_zero] at h
    exact h
  · obtain ⟨h1, h2⟩ := run_no_poll es g 0 (2 * g.dma.samples) 0 (by omega) (le_refl 0)
      hlens hpaced
    rw [h1, h2]
    exact ⟨rfl, fun r hr => absurd hr (List.not_mem_nil r)⟩

/-- Witness of C10: deliveries of 6, 6 and 4 bytes into a buffer of four
samples, each followed by a poll, the last poll repeated: the polls return 1,
3, 4 and 4. -/
theorem clock_counts_delivered_witness :
    (run start_state demo_events).map Soundtime.ret = [1, 3, 4, 4] ∧
    (run start_state demo_events).map Soundtime.ret
      = (delivered 0 demo_events).map (fun b => b / 2 / 2) :=
  ⟨by decide,
    (clock_counts_delivered start_state demo_events rfl rfl rfl (by decide) (by decide)
      (by decide) (by decide) (by decide) (by decide)).1⟩

/-! ## Shutdown: what it leaves -/

/-- C8. Lifecycle of shutdown: a shutdown right after another shutdown leaves
the state as the first left it and frees nothing; a shutdown of the state never
initialized (`initialized` false, no buffer) leaves it unchanged and frees
nothing; over any sequence of one or more shutdowns `Z_Free` is called exactly
once when a buffer is allocated and never otherwise. -/
theorem SNDDMA_Shutdown_lifecycle (g : Backend) (f1 f2 : Int → Int)
    (fs : List (Int → Int)) :
    ((SNDDMA_Shutdown f2 (SNDDMA_Shutdown f1 g).1).1 = (SNDDMA_Shutdown f1 g).1 ∧
      (SNDDMA_Shutdown f2 (SNDDMA_Shutdown f1 g).1).2.count Call.Z_Free = 0) ∧
    (g.dma.initialized = false → g.dma.buffer = none →
      (SNDDMA_Shutdown f1 g).1 = g ∧ (SNDDMA_Shutdown f1 g).2.count Call.Z_Free = 0) ∧
    (shutdowns g (f1 :: fs)).2.count Call.Z_Free = (if g.dma.buffer.isSome then 1 else 0) := by
  refine ⟨⟨?_, ?_⟩, ?_, ?_⟩
  · rw [SNDDMA_Shutdown_state f2, SNDDMA_Shutdown_state f1]
  · rw [SNDDMA_Shutdown_frees, SNDDMA_Shutdown_state f1]
    rfl
  · intro hi hb
    constructor
    · rw [SNDDMA_Shutdown_state]
      obtain ⟨⟨fmt, s, sp, sf, b, i⟩, pt, bf, old⟩ := g
      simp only at hi hb
      subst hi; subst hb
      rfl
    · rw [SNDDMA_Shutdown_frees, hb]
      rfl
  · simp only [shutdowns, List.count_append]
    rw [SNDDMA_Shutdown_frees, shutdowns_frees fs _ (by rw [SNDDMA_Shutdown_state])]
    simp

/-- Witness of C8: a shut down state is left as it is by one more shutdown,
and three shutdowns of a device with a buffer free it once. -/
theorem SNDDMA_Shutdown_lifecycle_witness :
    ((SNDDMA_Shutdown (fun _ => 1) closed_state).1 = closed_state ∧
      (SNDDMA_Shutdown (fun _ => 1) closed_state).2.count Call.Z_Free = 0) ∧
    (shutdowns start_state [fun _ => 1, fun _ => 0, fun _ => 1]).2.count Call.Z_Free = 1 :=
  ⟨(SNDDMA_Shutdown_lifecycle closed_state (fun _ => 1) (fun _ => 1) []).2.1 rfl rfl,
    (SNDDMA_Shutdown_lifecycle start_state (fun _ => 1) (fun _ => 1)
      [fun _ => 0, fun _ => 1]).2.2⟩

end S_Backend
